import Mathlib

/-!
# EditorWatch metrics engine — formal model

Shallow embedding of the metrics/flagging engine of the EditorWatch
repository (`src/analysis/metrics.py` plus the message templates of
`src/analysis/messages.py`), over the compact wire format
`{base_time, events: [[delta_ms, kind_code, filename, char_count], ...]}`
described in the spec.  Timestamps and character counts are integers
(milliseconds / characters); all scores and ratios are exact rationals
(the reference implementation uses IEEE doubles; the claims under study
are insensitive to that difference and the model computes the same
field values exactly).

A compact wire event is a heterogeneous JSON array; it is modelled as a
`List PyVal`.  The legacy dict event format that `_normalize_events`
also accepts is not modelled: every claim under study concerns the
compact wire format, which is the canonical input (§6 of the spec).
-/

namespace EditorWatch

/-- A JSON scalar as it occurs in a compact wire event: an integer
(delta or char count) or a string (kind code or filename). -/
inductive PyVal where
  | int (n : ℤ)
  | str (s : String)
deriving DecidableEq

/-- A compact wire event `[delta_ms, kind_code, filename, char_count]`;
trailing fields may be missing (the source guards on `len(event)`). -/
abbrev CEvent := List PyVal

/-- The compact wire record: `{base_time, events}`. -/
structure EventData where
  base_time : ℤ
  events : List CEvent
deriving DecidableEq

/-- Read a `PyVal` as an integer.  Used only at positions where the
source arithmetic requires an integer. -/
def pyInt : PyVal → ℤ
  | .int n => n
  | .str _ => 0

/-- Read a `PyVal` as a string. -/
def pyStr : PyVal → String
  | .str s => s
  | .int _ => ""

/-- Source `_get_timestamp` (compact branch): `base_time + event[0]`.
Events of arity 0 would raise `IndexError` in the source; the model is
total and only ever applied at arity ≥ 2, as are all theorems here. -/
def getTimestamp (base_time : ℤ) (e : CEvent) : ℤ :=
  base_time + pyInt (e.getD 0 (.int 0))

/-- Source `_get_type` (compact branch):
`{'i': 'insert', 'd': 'delete', 's': 'save'}.get(event[1], 'insert')`.
Unknown kind codes (and non-string values) default to `'insert'`,
matching the documented source quirk. -/
def getType (e : CEvent) : String :=
  match e.getD 1 (.str "") with
  | .str s => if s = "d" then "delete" else if s = "s" then "save" else "insert"
  | .int _ => "insert"

/-- Source `_get_char_count` (compact branch):
`event[3] if len(event) > 3 else 0`.  A missing `char_count` field is
silently read as 0. -/
def getCharCount (e : CEvent) : ℤ :=
  if 3 < e.length then pyInt (e.getD 3 (.int 0)) else 0

/-- Python `round(x, 1)` (one decimal).  Modelled as round-half-up on
exact rationals; no value in this development sits on a half-way point. -/
def round1 (x : ℚ) : ℚ := (round (x * 10) : ℤ) / 10

/-- Python `round(x, 3)` (three decimals), used for `edit_ratio`. -/
def round3 (x : ℚ) : ℚ := (round (x * 1000) : ℤ) / 1000

/-- Source `incremental_score`: share of inserted characters that did NOT come
from large pastes (insert events with `char_count > 100`), × 10. -/
def incremental_score (event_data : EventData) : ℚ :=
  if event_data.events = [] then 0 else
  let insert_events := event_data.events.filter (fun e => getType e == "insert")
  if insert_events = [] then 0 else
  let total_chars : ℤ := (insert_events.map getCharCount).sum
  if total_chars = 0 then 0 else
  let large_paste_chars : ℤ :=
    ((insert_events.filter (fun e => decide (100 < getCharCount e))).map getCharCount).sum
  let large_ratio : ℚ := (large_paste_chars : ℚ) / (total_chars : ℚ)
  round1 ((1 - large_ratio) * 10)

/-- The strictly positive inter-arrival gaps between consecutive
elements of a list of events (the `intervals` loop of `typing_variance`:
gaps with `time_diff > 0` are kept, in order). -/
def tvIntervals (base : ℤ) : List CEvent → List ℤ
  | a :: b :: rest =>
      (if 0 < getTimestamp base b - getTimestamp base a
        then [getTimestamp base b - getTimestamp base a] else [])
      ++ tvIntervals base (b :: rest)
  | _ => []

/-- Source `typing_variance`: coefficient-of-variation score of the positive
inter-arrival gaps of insert events with positive `char_count`.

The source computes `cv = np.sqrt(variance) / mean` and returns
`round(min(cv / 2, 1.0) * 10, 1)`.  With integer gaps `x₁ … xₙ`,
`S = Σ xᵢ > 0` and `D = n·Σ xᵢ² − S²` (so that `variance = D / n²` and
`cv = √D / S`), that rounded value equals
`min ((⌊√(10000·D)⌋ + S) / (2·S)) 100 / 10` with integer floor
division, which is how it is computed exactly here (`Nat.sqrt` is the
integer square root); theorem `typing_variance_exact` below proves this
equal to the direct `Real.sqrt` transcription. -/
def typing_variance (event_data : EventData) : ℚ :=
  if event_data.events.length < 2 then 0 else
  let insert_events := event_data.events.filter
    (fun e => getType e == "insert" && decide (0 < getCharCount e))
  if insert_events.length < 2 then 0 else
  let intervals := tvIntervals event_data.base_time insert_events
  if intervals.length < 2 then 0 else
  let n : ℚ := intervals.length
  let mean : ℚ := ((intervals.sum : ℤ) : ℚ) / n
  let variance : ℚ := ((intervals.map (fun x : ℤ => ((x : ℚ) - mean) ^ 2)).sum) / n
  if mean = 0 ∨ variance = 0 then 0 else
  let S : ℤ := intervals.sum
  let D : ℤ := (intervals.length : ℤ) * (intervals.map (fun x => x ^ 2)).sum - S ^ 2
  let K : ℤ := ((Nat.sqrt (10000 * D).toNat : ℤ) + S) / (2 * S)
  ((min K 100 : ℤ) : ℚ) / 10

/-- Source `error_correction_ratio`: deletions per insertion, scored. -/
def error_correction_ratio (event_data : EventData) : ℚ :=
  if event_data.events = [] then 0 else
  let insert_count := (event_data.events.filter (fun e => getType e == "insert")).length
  let delete_count := (event_data.events.filter (fun e => getType e == "delete")).length
  if insert_count = 0 then 0 else
  let ratio : ℚ := (delete_count : ℚ) / (insert_count : ℚ)
  round1 (min (ratio / 0.3) 1 * 10)

/-- The loop of `paste_burst_detection`, carrying `(bursts, last_time)`.
`last_time` starts at 0 (an absolute-epoch quirk of the source). -/
def pasteBurstGo (base : ℤ) (bursts : ℕ) (last_time : ℤ) : List CEvent → ℕ
  | [] => bursts
  | e :: rest =>
      if getType e = "insert" ∧ 100 < getCharCount e then
        pasteBurstGo base
          (if getTimestamp base e - last_time < 2000 then bursts + 1 else bursts)
          (getTimestamp base e) rest
      else pasteBurstGo base bursts last_time rest

/-- Source `paste_burst_detection`: count of qualifying large pastes
(`char_count > 100` inserts) arriving < 2000 ms after the previous
qualifying timestamp (initially 0). -/
def paste_burst_detection (event_data : EventData) : ℕ :=
  if event_data.events = [] then 0
  else pasteBurstGo event_data.base_time 0 0 event_data.events

/-- One suspicious 30-second window in the velocity analysis. -/
structure SuspiciousBurst where
  time_offset : ℚ
  cpm : ℤ
  chars : ℤ
deriving DecidableEq

/-- The dict returned by `code_velocity_analysis`. -/
structure Velocity where
  average_cpm : ℚ
  max_cpm : ℚ
  score : ℚ
  suspicious_bursts : List SuspiciousBurst
deriving DecidableEq

/-- Source `code_velocity_analysis`: chars-per-minute over fixed 30-second
windows anchored at the first event; the `while current_time < end_time`
loop is modelled as the list of its window start times. -/
def code_velocity_analysis (event_data : EventData) : Velocity :=
  if event_data.events.length < 2 then ⟨0, 0, 0, []⟩ else
  let insert_events := event_data.events.filter (fun e => getType e == "insert")
  if insert_events = [] then ⟨0, 0, 0, []⟩ else
  let base := event_data.base_time
  let window_size : ℤ := 30 * 1000
  let start_time := getTimestamp base (event_data.events.headD [])
  let end_time := getTimestamp base (event_data.events.getLastD [])
  let numWindows : ℕ := ((end_time - start_time).toNat + 29999) / 30000
  let windows := (List.range numWindows).map (fun k => start_time + window_size * k)
  let windowChars : List (ℤ × ℤ) := windows.filterMap (fun w =>
    let window_events := insert_events.filter (fun e =>
      decide (w ≤ getTimestamp base e) && decide (getTimestamp base e < w + window_size))
    if window_events = [] then none
    else some (w, (window_events.map getCharCount).sum))
  let velocities : List ℤ := windowChars.map (fun wc => wc.2 * 2)
  let suspicious_bursts : List SuspiciousBurst := windowChars.filterMap (fun wc =>
    if 200 < wc.2 * 2 then
      some ⟨((wc.1 - start_time : ℤ) : ℚ) / 1000 / 60, wc.2 * 2, wc.2⟩
    else none)
  let avg_cpm : ℚ :=
    if velocities = [] then 0 else round1 ((velocities.sum : ℚ) / (velocities.length : ℚ))
  let max_cpm : ℚ :=
    if velocities = [] then 0 else round1 (((velocities.max?).getD 0 : ℚ))
  let score : ℚ :=
    if avg_cpm ≤ 80 then 10
    else if avg_cpm ≤ 150 then 10 - (avg_cpm - 80) / 70 * 5
    else if avg_cpm ≤ 200 then 5 - (avg_cpm - 150) / 50 * 4
    else 0
  ⟨avg_cpm, max_cpm, round1 score, suspicious_bursts⟩

/-- The session-segmentation loop of `session_consistency_score`,
carrying `(sessions, current_session, last_time)`; finishing appends the
pending `current_session` if non-empty. -/
def sessionGo (base : ℤ) (sessions : List (List CEvent)) (current_session : List CEvent)
    (last_time : ℤ) : List CEvent → List (List CEvent)
  | [] => if current_session = [] then sessions else sessions ++ [current_session]
  | e :: rest =>
      let timestamp := getTimestamp base e
      let gap : ℚ := ((timestamp - last_time : ℤ) : ℚ) / 1000 / 60
      if 5 < gap ∧ current_session ≠ [] then
        sessionGo base (sessions ++ [current_session]) [e] timestamp rest
      else
        sessionGo base sessions (current_session ++ [e]) timestamp rest

/-- Source `session_consistency_score`: a new session starts when the gap since
the previous event exceeds 5 minutes; the session count is mapped
through the fixed lookup `1→0, 2→3, 3→6, 4→8, else→10`. -/
def session_consistency_score (event_data : EventData) : ℚ :=
  match event_data.events with
  | [] => 0
  | e0 :: _ =>
    let sessions := sessionGo event_data.base_time [] []
      (getTimestamp event_data.base_time e0) event_data.events
    let num_sessions := sessions.length
    if num_sessions = 1 then 0
    else if num_sessions = 2 then 3
    else if num_sessions = 3 then 6
    else if num_sessions = 4 then 8
    else 10

/-- Filename of an event as `file_level_analysis` reads it in the
compact branch: `event[2] if len(event) > 2 else 'unknown'` — note: no
basename reduction in the compact branch. -/
def fileOf (e : CEvent) : String :=
  if 2 < e.length then pyStr (e.getD 2 (.str "")) else "unknown"

/-- The issue strings of a `FileRisk`, abstracted: each constructor
carries the numeric values that the source formats into the template
strings of `src/analysis/messages.py` (rendering is injective on them). -/
inductive Issue where
  | large_pastes_pct (count : ℕ) (pct : ℚ)
  | large_pastes (count : ℕ)
  | very_few_edits (pct : ℚ)
  | entire_file (minutes : ℚ)
deriving DecidableEq

/-- The per-file risk record of `file_level_analysis`. -/
structure FileRisk where
  risk : String
  issues : List Issue
  total_chars : ℤ
  paste_count : ℕ
  edit_ratio : ℚ
  insert_count : ℕ
  delete_count : ℕ
deriving DecidableEq

/-- The per-file analysis step of `file_level_analysis`, applied to the
events of one file (in log order); files with no insert event are
skipped (`continue` in the source). -/
def analyzeFile (base : ℤ) (fileEvents : List CEvent) : Option FileRisk :=
  let inserts := fileEvents.filter (fun e => getType e == "insert")
  let deletes := fileEvents.filter (fun e => getType e == "delete")
  let total_chars : ℤ := (inserts.map getCharCount).sum
  if inserts = [] then none else
  let large_pastes := inserts.filter (fun e => decide (100 < getCharCount e))
  let paste_ratio : ℚ := (large_pastes.length : ℚ) / (inserts.length : ℚ)
  let edit_ratio : ℚ := (deletes.length : ℚ) / (inserts.length : ℚ)
  let risk : String :=
    if 0.5 < paste_ratio then "high"
    else if 0.3 < paste_ratio then "medium" else "low"
  let issues : List Issue :=
    if 0.5 < paste_ratio then [.large_pastes_pct large_pastes.length (paste_ratio * 100)]
    else if 0.3 < paste_ratio then [.large_pastes large_pastes.length] else []
  let risk : String :=
    if edit_ratio < 0.05 ∧ 10 < inserts.length then
      (if risk = "medium" then "high" else if risk = "low" then "medium" else risk)
    else risk
  let issues : List Issue :=
    if edit_ratio < 0.05 ∧ 10 < inserts.length then
      issues ++ [.very_few_edits (edit_ratio * 100)]
    else issues
  let duration : ℚ :=
    ((getTimestamp base (inserts.getLastD []) - getTimestamp base (inserts.headD []) : ℤ) : ℚ)
      / 1000 / 60
  let risk : String := if duration < 2 ∧ 200 < total_chars then "high" else risk
  let issues : List Issue :=
    if duration < 2 ∧ 200 < total_chars then issues ++ [.entire_file duration] else issues
  some ⟨risk, issues, total_chars, large_pastes.length, round3 edit_ratio,
    inserts.length, deletes.length⟩

/-- Filenames in first-seen order with an accumulator of already seen
names: the key order of a Python dict built by insertion. -/
def firstSeenAux (seen : List String) : List String → List String
  | [] => []
  | x :: xs =>
      if x ∈ seen then firstSeenAux seen xs else x :: firstSeenAux (x :: seen) xs

/-- Filenames in first-seen order. -/
def firstSeen (l : List String) : List String := firstSeenAux [] l

/-- Source `file_level_analysis`: group events by (raw, unreduced) filename in
first-seen order — the Python `files` dict — and analyze each file's
events; the result is the `file_risks` map as an ordered association
list. -/
def file_level_analysis (event_data : EventData) : List (String × FileRisk) :=
  let names := firstSeen (event_data.events.map fileOf)
  names.filterMap (fun name =>
    (analyzeFile event_data.base_time
        (event_data.events.filter (fun e => fileOf e == name))).map
      (fun fr => (name, fr)))

/-- The dict returned by `analyze_work_patterns` (for non-empty logs;
the source returns `{}` on an empty log, modelled as `none`). -/
structure WorkPatterns where
  total_duration_minutes : ℚ
  active_coding_minutes : ℚ
  breaks_count : ℕ
  total_chars_inserted : ℤ
  total_chars_deleted : ℤ
  paste_percentage : ℚ
  large_pastes_count : ℕ
deriving DecidableEq

/-- Gaps between consecutive events, in milliseconds, in order. -/
def adjGaps (base : ℤ) : List CEvent → List ℤ
  | a :: b :: rest => (getTimestamp base b - getTimestamp base a) :: adjGaps base (b :: rest)
  | _ => []

/-- Source `analyze_work_patterns`. -/
def analyze_work_patterns (event_data : EventData) : Option WorkPatterns :=
  if event_data.events = [] then none else
  let base := event_data.base_time
  let insert_events := event_data.events.filter (fun e => getType e == "insert")
  let delete_events := event_data.events.filter (fun e => getType e == "delete")
  let total_chars_inserted : ℤ := (insert_events.map getCharCount).sum
  let total_chars_deleted : ℤ := (delete_events.map getCharCount).sum
  let start_time := getTimestamp base (event_data.events.headD [])
  let end_time := getTimestamp base (event_data.events.getLastD [])
  let total_duration_minutes : ℚ := ((end_time - start_time : ℤ) : ℚ) / 1000 / 60
  let breaks : List ℚ := (adjGaps base event_data.events).filterMap (fun g =>
    if 10 < ((g : ℚ) / 1000 / 60) then some ((g : ℚ) / 1000 / 60) else none)
  let active_time : ℚ := total_duration_minutes - breaks.sum
  let large_pastes := insert_events.filter (fun e => decide (100 < getCharCount e))
  let large_paste_chars : ℤ := (large_pastes.map getCharCount).sum
  let paste_percentage : ℚ :=
    if 0 < total_chars_inserted then
      (large_paste_chars : ℚ) / (total_chars_inserted : ℚ) * 100
    else 0
  some ⟨round1 total_duration_minutes, round1 active_time, breaks.length,
    total_chars_inserted, total_chars_deleted, round1 paste_percentage,
    large_pastes.length⟩

/-- A rendered flag message, abstracted: one constructor per template
key of `src/analysis/messages.py`, carrying the named arguments the
source passes to `render` (rendering is injective on them). -/
inductive Msg where
  | paste_percentage (paste_percentage : ℚ)
  | completed_quickly (active_time : ℚ)
  | high_typing_speed (average_cpm : ℚ)
  | file_risks (file : String) (issues : List Issue)
  | chunks_appeared (incremental_score : ℚ)
  | robotic_typing (typing_variance : ℚ)
  | few_corrections (error_correction_ratio : ℚ)
  | few_sessions (session_consistency : ℚ)
  | no_suspicious
deriving DecidableEq

/-- A returned flag: note there is no priority field (the source pops
it before returning). -/
structure Flag where
  severity : String
  category : String
  message : Msg
deriving DecidableEq

/-- A candidate flag, still carrying its priority. -/
structure PFlag where
  priority : ℕ
  severity : String
  category : String
  message : Msg
deriving DecidableEq

/-- Drop the priority field (`flag.pop('priority', None)`). -/
def PFlag.toFlag (f : PFlag) : Flag := ⟨f.severity, f.category, f.message⟩

/-- The metrics dict assembled by `calculate_all_metrics` and consumed
by `calculate_overall_score` / `generate_detailed_flags`. -/
structure Metrics where
  incremental_score : ℚ
  typing_variance : ℚ
  error_correction_ratio : ℚ
  paste_burst_count : ℕ
  session_consistency : ℚ
  velocity : Velocity
  velocity_score : ℚ
  file_risks : List (String × FileRisk)
deriving DecidableEq

/-- The `potential_flags` candidate list of `generate_detailed_flags`,
in the source's construction order. -/
def potential_flags (metrics : Metrics) (work_patterns : Option WorkPatterns) : List PFlag :=
  let total_chars : ℤ := (work_patterns.map (fun wp => wp.total_chars_inserted)).getD 0
  let paste_percentage : ℚ := (work_patterns.map (fun wp => wp.paste_percentage)).getD 0
  let active_time : ℚ := (work_patterns.map (fun wp => wp.active_coding_minutes)).getD 0
  let velocity := metrics.velocity
  let file_risks := metrics.file_risks
  (if 70 < paste_percentage ∧ 500 < total_chars then
    [⟨10, "high", "Code Origin", .paste_percentage paste_percentage⟩] else [])
  ++ (if active_time < 10 ∧ 500 < total_chars then
    [⟨10, "high", "Time Analysis", .completed_quickly active_time⟩] else [])
  ++ (if 150 < velocity.average_cpm then
    [⟨10, "high", "Typing Speed", .high_typing_speed velocity.average_cpm⟩] else [])
  ++ ((file_risks.filter (fun fr => fr.2.risk == "high")).take 1).map
    (fun fr => ⟨9, "high", "File Analysis", .file_risks fr.1 fr.2.issues⟩)
  ++ (if metrics.incremental_score < 4 then
    [⟨5, "medium", "Development Pattern", .chunks_appeared metrics.incremental_score⟩] else [])
  ++ (if metrics.typing_variance < 3 then
    [⟨5, "medium", "Typing Behavior", .robotic_typing metrics.typing_variance⟩] else [])
  ++ (if metrics.error_correction_ratio < 2 ∧ 200 < total_chars then
    [⟨5, "medium", "Error Correction", .few_corrections metrics.error_correction_ratio⟩] else [])
  ++ (if metrics.session_consistency < 4 then
    [⟨5, "medium", "Work Sessions", .few_sessions metrics.session_consistency⟩] else [])

/-- Insert into a priority-descending list, after the elements of
strictly higher priority and before those of equal or lower priority —
the placement a stable descending sort gives an element that precedes
the list's elements in the original order. -/
def insertDesc (x : PFlag) : List PFlag → List PFlag
  | [] => [x]
  | y :: ys => if y.priority ≤ x.priority then x :: y :: ys else y :: insertDesc x ys

/-- Stable sort by priority descending: Python's
`potential_flags.sort(key=lambda x: x['priority'], reverse=True)`
(guaranteed stable, so candidates of equal priority keep their
construction order). -/
def sortDesc : List PFlag → List PFlag
  | [] => []
  | x :: xs => insertDesc x (sortDesc xs)

/-- The synthetic flag emitted when no candidate matched. -/
def noSuspiciousFlag : Flag := ⟨"none", "Assessment", .no_suspicious⟩

/-- Source `generate_detailed_flags`: top 3 candidates by priority (stable),
priority dropped; the synthetic "none" flag when nothing matched.  The
`event_data` parameter is unused, as in the source. -/
def generate_detailed_flags (metrics : Metrics) (_event_data : EventData)
    (work_patterns : Option WorkPatterns) : List Flag :=
  let flags := ((sortDesc (potential_flags metrics work_patterns)).take 3).map PFlag.toFlag
  if flags = [] then [noSuspiciousFlag] else flags

/-- Source `calculate_overall_score`: weighted sum of component scores, then
the hard penalties, in source order. -/
def calculate_overall_score (metrics : Metrics) : ℚ :=
  let score : ℚ :=
    metrics.incremental_score * 0.25 +
    metrics.typing_variance * 0.20 +
    metrics.error_correction_ratio * 0.20 +
    metrics.session_consistency * 0.20 +
    metrics.velocity.score * 0.15
  let score : ℚ :=
    if metrics.incremental_score ≤ 2 ∨ metrics.typing_variance ≤ 2 ∨
        metrics.velocity.score ≤ 2 then
      min score 3
    else score
  let score : ℚ := if 500 < metrics.velocity.average_cpm then min score 1 else score
  let score : ℚ :=
    if 5 < metrics.paste_burst_count then score * 0.3
    else if 2 < metrics.paste_burst_count then score * 0.6
    else score
  let score : ℚ := if metrics.session_consistency ≤ 1 then score * 0.7 else score
  round1 (max score 0)

/-- The full engine output of `calculate_all_metrics`. -/
structure AnalysisResult where
  metrics : Metrics
  overall_score : ℚ
  work_patterns : Option WorkPatterns
  flags : List Flag
deriving DecidableEq

/-- Source `calculate_all_metrics`: run every metric, the overall score and the
flag generator on one event log. -/
def calculate_all_metrics (event_data : EventData) : AnalysisResult :=
  let velocity_data := code_velocity_analysis event_data
  let metrics : Metrics :=
    ⟨incremental_score event_data,
      typing_variance event_data,
      error_correction_ratio event_data,
      paste_burst_detection event_data,
      session_consistency_score event_data,
      velocity_data,
      velocity_data.score,
      file_level_analysis event_data⟩
  let work_patterns := analyze_work_patterns event_data
  let overall := calculate_overall_score metrics
  let flags := generate_detailed_flags metrics event_data work_patterns
  ⟨metrics, overall, work_patterns, flags⟩

/-! ## Helper lemmas: rounding and sums -/

lemma round_mono {x y : ℚ} (h : x ≤ y) : round x ≤ round y := by
  simp only [round_eq]
  exact Int.floor_le_floor (by linarith)

lemma round1_intCast (n : ℤ) : round1 ((n : ℚ)) = (n : ℚ) := by
  unfold round1
  rw [show ((n : ℚ)) * 10 = (((n * 10 : ℤ)) : ℚ) by push_cast ; ring]
  rw [round_intCast]
  push_cast
  ring

lemma round1_nonneg {x : ℚ} (h : 0 ≤ x) : 0 ≤ round1 x := by
  have h0 : round ((0 : ℚ)) ≤ round (x * 10) := round_mono (by linarith)
  rw [round_zero] at h0
  unfold round1
  exact div_nonneg (by exact_mod_cast h0) (by norm_num)

lemma round1_le_ten {x : ℚ} (h : x ≤ 10) : round1 x ≤ 10 := by
  have h100 : round (x * 10) ≤ round (((100 : ℤ) : ℚ)) := round_mono (by push_cast ; linarith)
  rw [round_intCast] at h100
  unfold round1
  rw [div_le_iff (by norm_num : (0 : ℚ) < 10)]
  calc ((round (x * 10) : ℤ) : ℚ) ≤ 100 := by exact_mod_cast h100
    _ = 10 * 10 := by norm_num

lemma sum_map_charCount_nonneg {l : List CEvent} (h : ∀ e ∈ l, 0 ≤ getCharCount e) :
    0 ≤ (l.map getCharCount).sum := by
  apply List.sum_nonneg
  intro x hx
  obtain ⟨e, he, rfl⟩ := List.mem_map.mp hx
  exact h e he

lemma sum_map_filter_le (p : CEvent → Bool) {l : List CEvent}
    (h : ∀ e ∈ l, 0 ≤ getCharCount e) :
    ((l.filter p).map getCharCount).sum ≤ (l.map getCharCount).sum := by
  induction l with
  | nil => simp
  | cons a tl ih =>
    have ha := h a (by simp)
    have ih' := ih (fun e he => h e (by simp [he]))
    by_cases hp : p a
    · simp only [List.filter_cons, hp, if_pos, List.map_cons, List.sum_cons]
      linarith
    · simp only [List.filter_cons, hp, Bool.false_eq_true, if_neg, not_false_iff,
        List.map_cons, List.sum_cons]
      linarith

lemma sum_large_nonneg (l : List CEvent) :
    0 ≤ ((l.filter (fun e => decide (100 < getCharCount e))).map getCharCount).sum := by
  apply List.sum_nonneg
  intro x hx
  obtain ⟨e, he, rfl⟩ := List.mem_map.mp hx
  have := (List.mem_filter.mp he).2
  have h100 : 100 < getCharCount e := by simpa using this
  linarith

/-! ## Bounds of the individual metric scores -/

lemma incremental_score_bounds (d : EventData) (h : ∀ e ∈ d.events, 0 ≤ getCharCount e) :
    0 ≤ incremental_score d ∧ incremental_score d ≤ 10 := by
  unfold incremental_score
  dsimp only
  split
  · norm_num
  split
  · norm_num
  split
  · norm_num
  rename_i hne hins htot
  set ins := d.events.filter (fun e => getType e == "insert") with hinsdef
  have hsub : ∀ e ∈ ins, 0 ≤ getCharCount e := by
    intro e he
    exact h e (List.mem_filter.mp he).1
  set total : ℤ := (ins.map getCharCount).sum with htotal
  set large : ℤ :=
    ((ins.filter (fun e => decide (100 < getCharCount e))).map getCharCount).sum with hlarge
  have h0t : 0 ≤ total := sum_map_charCount_nonneg hsub
  have hpos : 0 < total := lt_of_le_of_ne h0t (by simpa using fun hc => htot hc.symm)
  have h0l : 0 ≤ large := sum_large_nonneg ins
  have hlt : large ≤ total := sum_map_filter_le _ hsub
  have hq : (0 : ℚ) ≤ (large : ℚ) / (total : ℚ) := by
    apply div_nonneg <;> exact_mod_cast (by assumption)
  have hq1 : (large : ℚ) / (total : ℚ) ≤ 1 := by
    rw [div_le_one (by exact_mod_cast hpos)]
    exact_mod_cast hlt
  constructor
  · exact round1_nonneg (by nlinarith)
  · exact round1_le_ten (by nlinarith)

lemma tvIntervals_pos (base : ℤ) : ∀ l : List CEvent, ∀ x ∈ tvIntervals base l, 0 < x := by
  intro l
  induction l with
  | nil => simp [tvIntervals]
  | cons a tl ih =>
    cases tl with
    | nil => simp [tvIntervals]
    | cons b rest =>
      intro x hx
      unfold tvIntervals at hx
      rcases List.mem_append.mp hx with h1 | h2
      · split at h1
        · rename_i hpos
          simp only [List.mem_singleton] at h1
          omega
        · simp at h1
      · exact ih x h2

lemma typing_variance_bounds (d : EventData) :
    0 ≤ typing_variance d ∧ typing_variance d ≤ 10 := by
  unfold typing_variance
  dsimp only
  split
  · norm_num
  split
  · norm_num
  split
  · norm_num
  split
  · norm_num
  rename_i hev hins hlen hmv
  set intervals := tvIntervals d.base_time
    (d.events.filter (fun e => getType e == "insert" && decide (0 < getCharCount e)))
    with hint
  have hpos : ∀ x ∈ intervals, 0 < x := tvIntervals_pos _ _
  have hne : intervals ≠ [] := by
    intro hc
    rw [hc] at hlen
    simp at hlen
  have hS : 0 < intervals.sum := List.sum_pos intervals hpos hne
  set S : ℤ := intervals.sum with hSdef
  set K : ℤ := ((Nat.sqrt (10000 * ((intervals.length : ℤ) *
    (intervals.map (fun x => x ^ 2)).sum - S ^ 2)).toNat : ℤ) + S) / (2 * S) with hK
  have hK0 : 0 ≤ K := by
    apply Int.ediv_nonneg
    · have : (0 : ℤ) ≤ (Nat.sqrt (10000 * ((intervals.length : ℤ) *
        (intervals.map (fun x => x ^ 2)).sum - S ^ 2)).toNat : ℤ) := Int.natCast_nonneg _
      omega
    · omega
  have hmin0 : (0 : ℤ) ≤ min K 100 := le_min hK0 (by norm_num)
  have hmin100 : min K 100 ≤ 100 := min_le_right _ _
  constructor
  · apply div_nonneg _ (by norm_num)
    exact_mod_cast hmin0
  · rw [div_le_iff (by norm_num : (0 : ℚ) < 10)]
    calc ((min K 100 : ℤ) : ℚ) ≤ 100 := by exact_mod_cast hmin100
      _ = 10 * 10 := by norm_num

lemma error_correction_ratio_bounds (d : EventData) :
    0 ≤ error_correction_ratio d ∧ error_correction_ratio d ≤ 10 := by
  unfold error_correction_ratio
  dsimp only
  split
  · norm_num
  split
  · norm_num
  set dc := (d.events.filter (fun e => getType e == "delete")).length
  set ic := (d.events.filter (fun e => getType e == "insert")).length
  have hr : (0 : ℚ) ≤ (dc : ℚ) / (ic : ℚ) := by positivity
  have hm0 : (0 : ℚ) ≤ min ((dc : ℚ) / (ic : ℚ) / 0.3) 1 := le_min (by positivity) (by norm_num)
  have hm1 : min ((dc : ℚ) / (ic : ℚ) / 0.3) 1 ≤ 1 := min_le_right _ _
  exact ⟨round1_nonneg (by nlinarith), round1_le_ten (by nlinarith)⟩

lemma session_consistency_score_bounds (d : EventData) :
    0 ≤ session_consistency_score d ∧ session_consistency_score d ≤ 10 := by
  unfold session_consistency_score
  dsimp only
  split
  · norm_num
  split
  · norm_num
  split
  · norm_num
  split
  · norm_num
  split
  · norm_num
  norm_num

lemma velocity_score_branch_bounds (a : ℚ) :
    0 ≤ (if a ≤ 80 then (10 : ℚ)
      else if a ≤ 150 then 10 - (a - 80) / 70 * 5
      else if a ≤ 200 then 5 - (a - 150) / 50 * 4
      else 0) ∧
    (if a ≤ 80 then (10 : ℚ)
      else if a ≤ 150 then 10 - (a - 80) / 70 * 5
      else if a ≤ 200 then 5 - (a - 150) / 50 * 4
      else 0) ≤ 10 := by
  split_ifs with h1 h2 h3 <;> constructor <;> push_neg at * <;> linarith

lemma code_velocity_analysis_score_bounds (d : EventData) :
    0 ≤ (code_velocity_analysis d).score ∧ (code_velocity_analysis d).score ≤ 10 := by
  unfold code_velocity_analysis
  dsimp only
  split
  · norm_num
  split
  · norm_num
  exact ⟨round1_nonneg (velocity_score_branch_bounds _).1,
    round1_le_ten (velocity_score_branch_bounds _).2⟩

lemma shrink_le_ten {x c : ℚ} (hx : x ≤ 10) (h0 : 0 ≤ c) (h1 : c ≤ 1) : x * c ≤ 10 := by
  nlinarith [mul_nonneg (by linarith : (0 : ℚ) ≤ 10 - x) h0]

set_option maxHeartbeats 1600000 in
lemma calculate_overall_score_bounds (m : Metrics)
    (hi : m.incremental_score ≤ 10) (htv : m.typing_variance ≤ 10)
    (hec : m.error_correction_ratio ≤ 10) (hsc : m.session_consistency ≤ 10)
    (hvs : m.velocity.score ≤ 10) :
    0 ≤ calculate_overall_score m ∧ calculate_overall_score m ≤ 10 := by
  unfold calculate_overall_score
  dsimp only
  constructor
  · exact round1_nonneg (le_max_right _ _)
  · apply round1_le_ten
    apply max_le _ (by norm_num)
    split_ifs
    all_goals repeat'
      apply shrink_le_ten _ (by norm_num) (by norm_num)
    all_goals first
      | linarith
      | exact le_trans (min_le_right _ _) (by norm_num)

/-! ## Paste-burst detection: fold characterization and monotonicity -/

/-- A qualifying event for paste-burst detection: an insert with
`char_count > 100` (a "large paste"). -/
def isQualifying (e : CEvent) : Prop := getType e = "insert" ∧ 100 < getCharCount e

instance decIsQualifying (e : CEvent) : Decidable (isQualifying e) := by
  unfold isQualifying
  exact And.decidable

/-- The timestamps of the qualifying events of a log, in log order. -/
def qualTimes (d : EventData) : List ℤ :=
  (d.events.filter (fun e => decide (isQualifying e))).map (getTimestamp d.base_time)

/-- Burst counting over a list of qualifying timestamps with a carried
previous timestamp: one count per gap < 2000 ms. -/
def burstCountAux (last : ℤ) : List ℤ → ℕ
  | [] => 0
  | t :: rest => (if t - last < 2000 then 1 else 0) + burstCountAux t rest

lemma pasteBurstGo_eq (base : ℤ) :
    ∀ (evs : List CEvent) (bursts : ℕ) (last : ℤ),
      pasteBurstGo base bursts last evs =
        bursts + burstCountAux last
          ((evs.filter (fun e => decide (isQualifying e))).map (getTimestamp base)) := by
  intro evs
  induction evs with
  | nil => intro bursts last; simp [pasteBurstGo, burstCountAux]
  | cons e rest ih =>
    intro bursts last
    unfold pasteBurstGo
    by_cases hq : getType e = "insert" ∧ 100 < getCharCount e
    · rw [if_pos hq]
      rw [ih]
      have hq' : decide (isQualifying e) = true := decide_eq_true hq
      simp only [List.filter_cons, hq', if_pos, List.map_cons, burstCountAux]
      by_cases h2 : getTimestamp base e - last < 2000 <;> simp [h2] <;> omega
    · rw [if_neg hq]
      rw [ih]
      have hq' : decide (isQualifying e) = false := decide_eq_false hq
      simp only [List.filter_cons, hq', Bool.false_eq_true, if_neg, not_false_iff]

lemma paste_burst_eq (d : EventData) :
    paste_burst_detection d = burstCountAux 0 (qualTimes d) := by
  unfold paste_burst_detection qualTimes
  split
  · rename_i h
    rw [h]
    simp [burstCountAux]
  · rw [pasteBurstGo_eq]
    simp

lemma burstCountAux_le_insert (s : ℤ) :
    ∀ (xs ys : List ℤ) (last : ℤ),
      burstCountAux last (xs ++ ys) ≤ burstCountAux last (xs ++ s :: ys) := by
  intro xs
  induction xs with
  | nil =>
    intro ys last
    cases ys with
    | nil => simp [burstCountAux]
    | cons y ys' =>
      simp only [List.nil_append, burstCountAux]
      split_ifs <;> omega
  | cons x xs' ih =>
    intro ys last
    simp only [List.cons_append, burstCountAux]
    exact Nat.add_le_add_left (ih ys x) _

/-! ## Session segmentation: split counting -/

/-- Number of session splits: gaps (since the carried previous
timestamp) strictly greater than 5 minutes = 300000 ms. -/
def splitCount (base : ℤ) (last : ℤ) : List CEvent → ℕ
  | [] => 0
  | e :: rest => (if 300000 < getTimestamp base e - last then 1 else 0) +
      splitCount base (getTimestamp base e) rest

/-- The fixed session-count lookup `1→0, 2→3, 3→6, 4→8, else→10`. -/
def sessionLookup (n : ℕ) : ℚ :=
  if n = 1 then 0
  else if n = 2 then 3
  else if n = 3 then 6
  else if n = 4 then 8
  else 10

lemma minutes_gt_five_iff (x : ℤ) : 5 < ((x : ℚ)) / 1000 / 60 ↔ 300000 < x := by
  rw [div_div]
  rw [lt_div_iff (by norm_num : (0 : ℚ) < 1000 * 60)]
  rw [show ((5 : ℚ)) * (1000 * 60) = ((300000 : ℤ) : ℚ) by norm_num]
  exact Int.cast_lt

lemma splitCount_cons (base last : ℤ) (e : CEvent) (rest : List CEvent) :
    splitCount base last (e :: rest) =
      (if 300000 < getTimestamp base e - last then 1 else 0) +
        splitCount base (getTimestamp base e) rest := rfl

lemma sessionGo_cons (base : ℤ) (sessions : List (List CEvent)) (current : List CEvent)
    (last : ℤ) (e : CEvent) (rest : List CEvent) :
    sessionGo base sessions current last (e :: rest) =
      if 5 < ((getTimestamp base e - last : ℤ) : ℚ) / 1000 / 60 ∧ current ≠ [] then
        sessionGo base (sessions ++ [current]) [e] (getTimestamp base e) rest
      else sessionGo base sessions (current ++ [e]) (getTimestamp base e) rest := rfl

lemma sessionGo_length (base : ℤ) :
    ∀ (evs : List CEvent) (sessions : List (List CEvent)) (current : List CEvent) (last : ℤ),
      current ≠ [] →
      (sessionGo base sessions current last evs).length =
        sessions.length + 1 + splitCount base last evs := by
  intro evs
  induction evs with
  | nil =>
    intro sessions current last hc
    simp [sessionGo, splitCount, hc]
  | cons e rest ih =>
    intro sessions current last hc
    rw [sessionGo_cons, splitCount_cons]
    by_cases hgap : 5 < ((getTimestamp base e - last : ℤ) : ℚ) / 1000 / 60
    · rw [if_pos ⟨hgap, hc⟩]
      rw [ih _ _ _ (by simp)]
      rw [if_pos ((minutes_gt_five_iff _).mp hgap)]
      simp only [List.length_append, List.length_singleton]
      omega
    · rw [if_neg (fun hcon => hgap hcon.1)]
      rw [ih _ _ _ (by simp)]
      rw [if_neg (fun h300 => hgap ((minutes_gt_five_iff _).mpr h300))]
      omega

lemma session_score_eq (d : EventData) (e0 : CEvent) (rest : List CEvent)
    (h : d.events = e0 :: rest) :
    session_consistency_score d =
      sessionLookup (1 + splitCount d.base_time (getTimestamp d.base_time e0) rest) := by
  unfold session_consistency_score
  rw [h]
  dsimp only
  have hstep : sessionGo d.base_time [] [] (getTimestamp d.base_time e0) (e0 :: rest) =
      sessionGo d.base_time [] [e0] (getTimestamp d.base_time e0) rest := by
    rw [sessionGo_cons]
    rw [if_neg (fun hcon => hcon.2 rfl)]
    rw [List.nil_append]
  rw [hstep]
  rw [sessionGo_length d.base_time rest [] [e0] _ (by simp)]
  simp only [List.length_nil]
  rfl

/-! ## Flag generator: ordering and the "none" case -/

lemma insertDesc_cons (x y : PFlag) (ys : List PFlag) :
    insertDesc x (y :: ys) =
      if y.priority ≤ x.priority then x :: y :: ys else y :: insertDesc x ys := rfl

lemma sortDesc_cons (x : PFlag) (xs : List PFlag) :
    sortDesc (x :: xs) = insertDesc x (sortDesc xs) := rfl

lemma insertDesc_eq_cons (x : PFlag) (l : List PFlag)
    (h : ∀ y ∈ l, y.priority ≤ x.priority) : insertDesc x l = x :: l := by
  cases l with
  | nil => rfl
  | cons y ys =>
    rw [insertDesc_cons, if_pos (h y (by simp))]

lemma insertDesc_append_of_lt (x : PFlag) (l1 l2 : List PFlag)
    (h : ∀ y ∈ l1, x.priority < y.priority) :
    insertDesc x (l1 ++ l2) = l1 ++ insertDesc x l2 := by
  induction l1 with
  | nil => simp
  | cons y ys ih =>
    simp only [List.cons_append]
    rw [insertDesc_cons, if_neg (not_le.mpr (h y (by simp)))]
    rw [ih (fun z hz => h z (by simp [hz]))]

/-- For candidate lists whose priorities all lie in {10, 9, 5} — as the
flag generator's do — the stable descending sort is exactly the
concatenation of the priority classes in construction order: this is
the "sorted by priority descending, ties broken by the listed candidate
order" contract. -/
lemma sortDesc_buckets (l : List PFlag)
    (h : ∀ f ∈ l, f.priority = 10 ∨ f.priority = 9 ∨ f.priority = 5) :
    sortDesc l =
      l.filter (fun f => f.priority == 10) ++ l.filter (fun f => f.priority == 9) ++
        l.filter (fun f => f.priority == 5) := by
  induction l with
  | nil => rfl
  | cons x xs ih =>
    have hx := h x (by simp)
    have hxs : ∀ f ∈ xs, f.priority = 10 ∨ f.priority = 9 ∨ f.priority = 5 :=
      fun f hf => h f (by simp [hf])
    have ih' := ih hxs
    have hmem10 : ∀ y ∈ xs.filter (fun f => f.priority == 10), y.priority = 10 := by
      intro y hy
      simpa using (List.mem_filter.mp hy).2
    have hmem9 : ∀ y ∈ xs.filter (fun f => f.priority == 9), y.priority = 9 := by
      intro y hy
      simpa using (List.mem_filter.mp hy).2
    have hmem5 : ∀ y ∈ xs.filter (fun f => f.priority == 5), y.priority = 5 := by
      intro y hy
      simpa using (List.mem_filter.mp hy).2
    rw [sortDesc_cons, ih']
    rcases hx with h10 | h9 | h5
    · rw [insertDesc_eq_cons]
      · simp only [List.filter_cons, h10]
        norm_num
      · intro y hy
        rcases List.mem_append.mp hy with hy | hy
        · rcases List.mem_append.mp hy with hy | hy
          · have := hmem10 y hy
            omega
          · have := hmem9 y hy
            omega
        · have := hmem5 y hy
          omega
    · rw [List.append_assoc]
      rw [insertDesc_append_of_lt x _ _ (by intro y hy; have := hmem10 y hy; omega)]
      rw [insertDesc_eq_cons x _ (by
        intro y hy
        rcases List.mem_append.mp hy with hy | hy
        · have := hmem9 y hy
          omega
        · have := hmem5 y hy
          omega)]
      simp only [List.filter_cons, h9]
      norm_num
    · rw [insertDesc_append_of_lt x _ _ (by
        intro y hy
        rcases List.mem_append.mp hy with hy | hy
        · have := hmem10 y hy
          omega
        · have := hmem9 y hy
          omega)]
      rw [insertDesc_eq_cons x _ (by intro y hy; have := hmem5 y hy; omega)]
      simp only [List.filter_cons, h5]
      norm_num

lemma mem_ite_singleton {α : Type} {c : Prop} [Decidable c] {a x : α}
    (h : x ∈ (if c then [a] else ([] : List α))) : x = a := by
  by_cases hc : c
  · rw [if_pos hc] at h
    simpa using h
  · rw [if_neg hc] at h
    simp at h

lemma potential_flags_priorities (m : Metrics) (wp : Option WorkPatterns) :
    ∀ f ∈ potential_flags m wp, f.priority = 10 ∨ f.priority = 9 ∨ f.priority = 5 := by
  intro f hf
  unfold potential_flags at hf
  dsimp only at hf
  rcases List.mem_append.mp hf with hf | hf
  swap
  · obtain rfl := mem_ite_singleton hf
    exact Or.inr (Or.inr rfl)
  rcases List.mem_append.mp hf with hf | hf
  swap
  · obtain rfl := mem_ite_singleton hf
    exact Or.inr (Or.inr rfl)
  rcases List.mem_append.mp hf with hf | hf
  swap
  · obtain rfl := mem_ite_singleton hf
    exact Or.inr (Or.inr rfl)
  rcases List.mem_append.mp hf with hf | hf
  swap
  · obtain rfl := mem_ite_singleton hf
    exact Or.inr (Or.inr rfl)
  rcases List.mem_append.mp hf with hf | hf
  swap
  · obtain ⟨fr, _, rfl⟩ := List.mem_map.mp hf
    exact Or.inr (Or.inl rfl)
  rcases List.mem_append.mp hf with hf | hf
  swap
  · obtain rfl := mem_ite_singleton hf
    exact Or.inl rfl
  rcases List.mem_append.mp hf with hf | hf
  · obtain rfl := mem_ite_singleton hf
    exact Or.inl rfl
  · obtain rfl := mem_ite_singleton hf
    exact Or.inl rfl

/-- Predicate "no candidate condition matches": the negation of each of the eight
trigger conditions of §4.5 of the spec, over the values the generator
reads (with the empty work-pattern defaults). -/
def noFlagConditions (m : Metrics) (wp : Option WorkPatterns) : Prop :=
  let total_chars : ℤ := (wp.map (fun w => w.total_chars_inserted)).getD 0
  let paste_percentage : ℚ := (wp.map (fun w => w.paste_percentage)).getD 0
  let active_time : ℚ := (wp.map (fun w => w.active_coding_minutes)).getD 0
  ¬(70 < paste_percentage ∧ 500 < total_chars) ∧
  ¬(active_time < 10 ∧ 500 < total_chars) ∧
  ¬(150 < m.velocity.average_cpm) ∧
  (∀ fr ∈ m.file_risks, fr.2.risk ≠ "high") ∧
  ¬(m.incremental_score < 4) ∧
  ¬(m.typing_variance < 3) ∧
  ¬(m.error_correction_ratio < 2 ∧ 200 < total_chars) ∧
  ¬(m.session_consistency < 4)

lemma potential_flags_eq_nil (m : Metrics) (wp : Option WorkPatterns)
    (h : noFlagConditions m wp) : potential_flags m wp = [] := by
  unfold noFlagConditions at h
  dsimp only at h
  obtain ⟨h1, h2, h3, h4, h5, h6, h7, h8⟩ := h
  unfold potential_flags
  dsimp only
  rw [if_neg h1, if_neg h2, if_neg h3, if_neg h5, if_neg h6, if_neg h7, if_neg h8]
  have hfil : m.file_risks.filter (fun fr => fr.2.risk == "high") = [] := by
    rw [List.filter_eq_nil]
    intro a ha
    simpa using h4 a ha
  rw [hfil]
  rfl

lemma generate_flags_length_le (m : Metrics) (ed : EventData) (wp : Option WorkPatterns) :
    (generate_detailed_flags m ed wp).length ≤ 3 := by
  unfold generate_detailed_flags
  dsimp only
  split
  · simp
  · simp only [List.length_map, List.length_take]
    omega

lemma generate_flags_none (m : Metrics) (ed : EventData) (wp : Option WorkPatterns)
    (h : noFlagConditions m wp) :
    generate_detailed_flags m ed wp = [noSuspiciousFlag] := by
  unfold generate_detailed_flags
  dsimp only
  rw [potential_flags_eq_nil m wp h]
  rfl

/-! ## The score aggregator as the spec words it (§4.6) -/

/-- Spec-side definition: `calculate_overall_score` as §4.6 of the spec describes it: the
weighted combination, then the four penalty stages in the listed order,
then the clamp to ≥ 0 and rounding to one decimal. -/
def overall_score_spec (m : Metrics) : ℚ :=
  let weighted : ℚ :=
    m.incremental_score * 0.25 + m.typing_variance * 0.20 +
    m.error_correction_ratio * 0.20 + m.session_consistency * 0.20 +
    m.velocity.score * 0.15
  let s1 : ℚ :=
    if m.incremental_score ≤ 2 ∨ m.typing_variance ≤ 2 ∨ m.velocity.score ≤ 2 then
      min weighted 3
    else weighted
  let s2 : ℚ := if 500 < m.velocity.average_cpm then min s1 1 else s1
  let s3 : ℚ :=
    if 5 < m.paste_burst_count then s2 * 0.3
    else if 2 < m.paste_burst_count then s2 * 0.6
    else s2
  let s4 : ℚ := if m.session_consistency ≤ 1 then s3 * 0.7 else s3
  round1 (max s4 0)

/-! ## Evaluation on the empty log -/

lemma incremental_score_empty (bt : ℤ) : incremental_score ⟨bt, []⟩ = 0 := rfl

lemma typing_variance_empty (bt : ℤ) : typing_variance ⟨bt, []⟩ = 0 := rfl

lemma error_correction_ratio_empty (bt : ℤ) : error_correction_ratio ⟨bt, []⟩ = 0 := rfl

lemma paste_burst_detection_empty (bt : ℤ) : paste_burst_detection ⟨bt, []⟩ = 0 := rfl

lemma session_consistency_score_empty (bt : ℤ) : session_consistency_score ⟨bt, []⟩ = 0 := rfl

lemma code_velocity_analysis_empty (bt : ℤ) :
    code_velocity_analysis ⟨bt, []⟩ = ⟨0, 0, 0, []⟩ := rfl

lemma file_level_analysis_empty (bt : ℤ) : file_level_analysis ⟨bt, []⟩ = [] := rfl

lemma analyze_work_patterns_empty (bt : ℤ) : analyze_work_patterns ⟨bt, []⟩ = none := rfl

/-- The all-zero metrics record of an empty log. -/
def emptyMetrics : Metrics := ⟨0, 0, 0, 0, 0, ⟨0, 0, 0, []⟩, 0, []⟩

lemma calculate_overall_score_emptyMetrics : calculate_overall_score emptyMetrics = 0 := by
  unfold calculate_overall_score emptyMetrics
  norm_num [round1]

lemma potential_flags_emptyMetrics :
    potential_flags emptyMetrics none =
      [⟨5, "medium", "Development Pattern", .chunks_appeared 0⟩,
        ⟨5, "medium", "Typing Behavior", .robotic_typing 0⟩,
        ⟨5, "medium", "Work Sessions", .few_sessions 0⟩] := by
  unfold potential_flags emptyMetrics
  norm_num

lemma generate_flags_emptyMetrics (bt : ℤ) :
    generate_detailed_flags emptyMetrics ⟨bt, []⟩ none =
      [⟨"medium", "Development Pattern", .chunks_appeared 0⟩,
        ⟨"medium", "Typing Behavior", .robotic_typing 0⟩,
        ⟨"medium", "Work Sessions", .few_sessions 0⟩] := by
  unfold generate_detailed_flags
  rw [potential_flags_emptyMetrics]
  rfl

/-- Claim C10 — For the empty event log (`{base_time: any, events: []}`),
`calculate_all_metrics` returns the fully defined neutral result:
all four 0–10 component scores 0.0, `paste_burst_count` 0, an all-zero
velocity record with no suspicious bursts, empty `file_risks` and
`work_patterns`, `overall_score` 0.0 — and the flags list is exactly the
three medium-severity flags (Development Pattern, Typing Behavior, Work
Sessions), not the single severity-none flag. -/
theorem empty_log_neutral_result (bt : ℤ) :
    calculate_all_metrics ⟨bt, []⟩ =
      ⟨emptyMetrics, 0, none,
        [⟨"medium", "Development Pattern", .chunks_appeared 0⟩,
          ⟨"medium", "Typing Behavior", .robotic_typing 0⟩,
          ⟨"medium", "Work Sessions", .few_sessions 0⟩]⟩ ∧
    calculate_all_metrics ⟨bt, []⟩ ≠
      ⟨emptyMetrics, 0, none, [noSuspiciousFlag]⟩ := by
  have hmain : calculate_all_metrics ⟨bt, []⟩ =
      ⟨emptyMetrics, 0, none,
        [⟨"medium", "Development Pattern", .chunks_appeared 0⟩,
          ⟨"medium", "Typing Behavior", .robotic_typing 0⟩,
          ⟨"medium", "Work Sessions", .few_sessions 0⟩]⟩ := by
    unfold calculate_all_metrics
    dsimp only
    rw [incremental_score_empty, typing_variance_empty, error_correction_ratio_empty,
      paste_burst_detection_empty, session_consistency_score_empty,
      code_velocity_analysis_empty, file_level_analysis_empty, analyze_work_patterns_empty]
    have hm : (⟨0, 0, 0, 0, 0, ⟨0, 0, 0, []⟩, (Velocity.mk 0 0 0 []).score, []⟩ : Metrics) =
        emptyMetrics := rfl
    rw [hm, calculate_overall_score_emptyMetrics, generate_flags_emptyMetrics]
  refine ⟨hmain, ?_⟩
  rw [hmain]
  simp [emptyMetrics, noSuspiciousFlag]

/-! ## A log with one massive instantaneous paste (§8 scenario) -/

/-- A single huge paste (50000 chars at `delta 0`) followed 100 ms later
by a save: huge `char_count`, near-zero duration, single session. -/
def bigPasteLog : EventData :=
  ⟨1000000, [[.int 0, .str "i", .str "main.py", .int 50000],
    [.int 100, .str "s", .str "main.py", .int 0]]⟩

lemma bigPaste_incremental : incremental_score bigPasteLog = 0 := by
  unfold incremental_score bigPasteLog
  norm_num +decide [getType, getCharCount, pyInt, round1]

lemma bigPaste_tv : typing_variance bigPasteLog = 0 := by
  unfold typing_variance bigPasteLog
  norm_num +decide [getType, getCharCount, pyInt]

lemma bigPaste_ec : error_correction_ratio bigPasteLog = 0 := by
  unfold error_correction_ratio bigPasteLog
  norm_num +decide [getType, round1]

lemma bigPaste_pb : paste_burst_detection bigPasteLog = 0 := by decide

lemma bigPaste_sc : session_consistency_score bigPasteLog = 0 := by
  rw [session_score_eq bigPasteLog _ _ rfl]
  decide

lemma range_one_eq : List.range 1 = [0] := by decide

lemma toNat_hundred : (100 : ℤ).toNat = 100 := rfl

lemma windows_count_hundred_ms : (100 + 29999) / 30000 = 1 := by decide

lemma bigPaste_vel :
    code_velocity_analysis bigPasteLog = ⟨100000, 100000, 0, [⟨0, 100000, 50000⟩]⟩ := by
  unfold code_velocity_analysis bigPasteLog
  norm_num +decide [getType, getTimestamp, getCharCount, pyInt, round1, range_one_eq,
    List.filterMap_cons, toNat_hundred, windows_count_hundred_ms]

lemma bigPaste_overall : (calculate_all_metrics bigPasteLog).overall_score ≤ 1 := by
  have h : (calculate_all_metrics bigPasteLog).overall_score =
      calculate_overall_score ⟨0, 0, 0, 0, 0, ⟨100000, 100000, 0, [⟨0, 100000, 50000⟩]⟩, 0,
        file_level_analysis bigPasteLog⟩ := by
    unfold calculate_all_metrics
    dsimp only
    rw [bigPaste_incremental, bigPaste_tv, bigPaste_ec, bigPaste_pb, bigPaste_sc, bigPaste_vel]
  rw [h]
  unfold calculate_overall_score
  norm_num [round1]

/-! ## Claim C2 -/

/-- Claim C2 — For every metrics input, `calculate_overall_score` equals
the spec's §4.6 formula: the weighted sum
`incremental×0.25 + typing_variance×0.20 + error_correction×0.20 +
session_consistency×0.20 + velocity_score×0.15`, then in this exact
order: (1) cap at 3.0 when `incremental ≤ 2` or `typing_variance ≤ 2`
or `velocity_score ≤ 2`; (2) cap at 1.0 when `average_cpm > 500`;
(3) ×0.3 when `paste_burst_count > 5`, else ×0.6 when > 2;
(4) ×0.7 when `session_consistency ≤ 1`; then clamp to ≥ 0 and round to
one decimal.  In particular a log with one massive instantaneous paste
(`bigPasteLog`: 50000 chars in 100 ms, single session) scores ≤ 1.0. -/
theorem overall_score_formula :
    (∀ m : Metrics, calculate_overall_score m = overall_score_spec m) ∧
    (calculate_all_metrics bigPasteLog).overall_score ≤ 1 :=
  ⟨fun _ => rfl, bigPaste_overall⟩

/-! ## Claim C4 -/

/-- The insert events of a log. -/
def insertsOf (d : EventData) : List CEvent :=
  d.events.filter (fun e => getType e == "insert")

/-- Total character volume of the insert events. -/
def insTotalChars (d : EventData) : ℤ := ((insertsOf d).map getCharCount).sum

/-- Character volume of the large-paste insert events (`char_count > 100`). -/
def insLargeChars (d : EventData) : ℤ :=
  (((insertsOf d).filter (fun e => decide (100 < getCharCount e))).map getCharCount).sum

/-- Claim C4 — With at least one insert event and non-zero total insert
volume, `incremental_score` is `(1 − large_ratio) × 10` rounded to one
decimal, where `large_ratio` is the large-paste char volume over the
total insert char volume; it is 10.0 when every insert has
`char_count ≤ 100`, 0.0 when all inserted characters come from large
pastes, and 0.0 when there are no inserts or the total is zero. -/
theorem incremental_score_formula (d : EventData) :
    (insertsOf d ≠ [] → insTotalChars d ≠ 0 →
      incremental_score d =
        round1 ((1 - (insLargeChars d : ℚ) / (insTotalChars d : ℚ)) * 10)) ∧
    ((∀ e ∈ insertsOf d, getCharCount e ≤ 100) → insTotalChars d ≠ 0 →
      incremental_score d = 10) ∧
    (insLargeChars d = insTotalChars d → insTotalChars d ≠ 0 → incremental_score d = 0) ∧
    (insertsOf d = [] ∨ insTotalChars d = 0 → incremental_score d = 0) := by
  have hbase : insertsOf d ≠ [] → insTotalChars d ≠ 0 →
      incremental_score d =
        round1 ((1 - (insLargeChars d : ℚ) / (insTotalChars d : ℚ)) * 10) := by
    intro h1 h2
    have hne : d.events ≠ [] := by
      intro hc
      apply h1
      unfold insertsOf
      rw [hc]
      rfl
    unfold incremental_score
    unfold insertsOf at h1
    unfold insTotalChars insertsOf at h2
    rw [if_neg hne]
    rw [if_neg h1, if_neg h2]
    rfl
  have hins_of_total : insTotalChars d ≠ 0 → insertsOf d ≠ [] := by
    intro h2 hc
    apply h2
    unfold insTotalChars
    rw [hc]
    rfl
  refine ⟨hbase, ?_, ?_, ?_⟩
  · intro hall h2
    rw [hbase (hins_of_total h2) h2]
    have hlarge : insLargeChars d = 0 := by
      unfold insLargeChars
      have hfil : (insertsOf d).filter (fun e => decide (100 < getCharCount e)) = [] := by
        rw [List.filter_eq_nil]
        intro a ha
        have := hall a ha
        simp only [decide_eq_true_eq]
        omega
      rw [hfil]
      rfl
    rw [hlarge]
    rw [show ((0 : ℤ) : ℚ) = 0 from rfl, zero_div, sub_zero, one_mul]
    exact round1_intCast 10
  · intro heq h2
    rw [hbase (hins_of_total h2) h2, heq]
    rw [div_self (by exact_mod_cast h2)]
    rw [sub_self, zero_mul]
    rw [show ((0 : ℚ)) = ((0 : ℤ) : ℚ) from rfl]
    exact round1_intCast 0
  · intro hor
    unfold incremental_score
    by_cases hev : d.events = []
    · rw [if_pos hev]
    · rw [if_neg hev]
      rcases hor with h | h
      · unfold insertsOf at h
        rw [if_pos h]
      · by_cases hins : d.events.filter (fun e => getType e == "insert") = []
        · rw [if_pos hins]
        · rw [if_neg hins]
          unfold insTotalChars insertsOf at h
          rw [if_pos h]

/-- Witness for C4 at `bigPasteLog` (one 50000-char insert). -/
theorem incremental_score_formula_witness :
    (insertsOf bigPasteLog ≠ [] ∧ insTotalChars bigPasteLog ≠ 0) ∧
      incremental_score bigPasteLog =
        round1 ((1 - (insLargeChars bigPasteLog : ℚ) / (insTotalChars bigPasteLog : ℚ)) * 10) :=
  ⟨⟨by decide, by decide⟩,
    (incremental_score_formula bigPasteLog).1 (by decide) (by decide)⟩

/-! ## Claim C5 -/

/-- Claim C5 — For a non-empty log, `session_consistency_score` counts
sessions (a new session starts exactly when the gap since the previous
event exceeds 5 minutes = 300000 ms; the count is 1 plus the number of
such gaps between consecutive events) and maps the count through the
fixed lookup `1→0.0, 2→3.0, 3→6.0, 4→8.0, ≥5→10.0`. -/
theorem session_consistency_lookup (d : EventData) (e0 : CEvent) (rest : List CEvent)
    (h : d.events = e0 :: rest) :
    session_consistency_score d =
      sessionLookup (1 + splitCount d.base_time (getTimestamp d.base_time e0) rest) ∧
    sessionLookup 1 = 0 ∧ sessionLookup 2 = 3 ∧ sessionLookup 3 = 6 ∧
    sessionLookup 4 = 8 ∧ (∀ n, 5 ≤ n → sessionLookup n = 10) := by
  refine ⟨session_score_eq d e0 rest h, rfl, rfl, rfl, rfl, ?_⟩
  intro n hn
  unfold sessionLookup
  rw [if_neg (by omega), if_neg (by omega), if_neg (by omega), if_neg (by omega)]

/-- A log with two sessions: two inserts 400000 ms (> 5 min) apart. -/
def twoSessionLog : EventData :=
  ⟨0, [[.int 0, .str "i", .str "a.py", .int 5], [.int 400000, .str "i", .str "a.py", .int 5]]⟩

/-- Witness for C5 at `twoSessionLog`; its two sessions score 3.0. -/
theorem session_consistency_lookup_witness :
    (session_consistency_score twoSessionLog =
      sessionLookup (1 + splitCount twoSessionLog.base_time
        (getTimestamp twoSessionLog.base_time [.int 0, .str "i", .str "a.py", .int 5])
        [[.int 400000, .str "i", .str "a.py", .int 5]]) ∧
     sessionLookup 1 = 0 ∧ sessionLookup 2 = 3 ∧ sessionLookup 3 = 6 ∧
     sessionLookup 4 = 8 ∧ (∀ n, 5 ≤ n → sessionLookup n = 10)) ∧
    session_consistency_score twoSessionLog = 3 := by
  refine ⟨session_consistency_lookup twoSessionLog _ _ rfl, ?_⟩
  rw [session_score_eq twoSessionLog _ _ rfl]
  decide

/-! ## Claim C6 -/

lemma burstCountAux_cons (last t : ℤ) (rest : List ℤ) :
    burstCountAux last (t :: rest) =
      (if t - last < 2000 then 1 else 0) + burstCountAux t rest := rfl

/-- A log whose only event is a large paste at absolute timestamp 0. -/
def earlyPasteLog : EventData := ⟨0, [[.int 0, .str "i", .str "a.py", .int 200]]⟩

/-- Claim C6 counterexample — `earlyPasteLog` has exactly one qualifying
large paste (so no previous qualifying event exists), yet
`paste_burst_detection` returns 1, not 0: `last_time` starts at 0, so a
first qualifying event with absolute timestamp < 2000 ms increments the
counter. -/
theorem first_paste_counted_at_time_zero :
    paste_burst_detection earlyPasteLog = 1 ∧
    (earlyPasteLog.events.filter (fun e => decide (isQualifying e))).length = 1 := by
  constructor <;> decide

/-- Claim C6 (amended) — `paste_burst_detection` iterates the qualifying
events (inserts with `char_count > 100`) in log order and counts gaps
< 2000 ms from the previous qualifying timestamp, with the carried
previous timestamp initialized to 0: hence the FIRST qualifying event
increments the counter if and only if its absolute timestamp is
< 2000 ms; subsequent qualifying events follow the gap rule. -/
theorem paste_burst_first_event_rule (d : EventData) (t : ℤ) (rest : List ℤ)
    (h : qualTimes d = t :: rest) :
    paste_burst_detection d = (if t < 2000 then 1 else 0) + burstCountAux t rest := by
  rw [paste_burst_eq, h, burstCountAux_cons]
  rw [sub_zero]

/-- Witness for the amended C6 at `earlyPasteLog`. -/
theorem paste_burst_first_event_rule_witness :
    qualTimes earlyPasteLog = 0 :: [] ∧
      paste_burst_detection earlyPasteLog =
        (if (0 : ℤ) < 2000 then 1 else 0) + burstCountAux 0 [] :=
  ⟨by decide, paste_burst_first_event_rule earlyPasteLog 0 [] (by decide)⟩

/-! ## Claim C7 -/

/-- Claim C7 — `paste_burst_detection` is monotone under inserting an
additional qualifying large-paste event anywhere into the log in time
order: the count of the extended log is ≥ the count of the original. -/
theorem paste_burst_monotone (base : ℤ) (l1 l2 : List CEvent) (e : CEvent)
    (hq : isQualifying e)
    (_h1 : ∀ a ∈ l1, getTimestamp base a ≤ getTimestamp base e)
    (_h2 : ∀ b ∈ l2, getTimestamp base e ≤ getTimestamp base b) :
    paste_burst_detection ⟨base, l1 ++ l2⟩ ≤ paste_burst_detection ⟨base, l1 ++ e :: l2⟩ := by
  rw [paste_burst_eq, paste_burst_eq]
  unfold qualTimes
  dsimp only
  have he : decide (isQualifying e) = true := decide_eq_true hq
  simp only [List.filter_append, List.filter_cons, he, if_pos, List.map_append, List.map_cons]
  exact burstCountAux_le_insert (getTimestamp base e) _ _ 0

/-- Witness for C7: inserting a second large paste 1000 ms after an
existing one (count goes from 1 to 2 ≥ 1). -/
theorem paste_burst_monotone_witness :
    (isQualifying ([.int 1000, .str "i", .str "x.py", .int 300] : CEvent) ∧
      (∀ a ∈ ([[.int 0, .str "i", .str "x.py", .int 500]] : List CEvent),
        getTimestamp 0 a ≤ getTimestamp 0 ([.int 1000, .str "i", .str "x.py", .int 300] : CEvent)) ∧
      (∀ b ∈ ([] : List CEvent),
        getTimestamp 0 ([.int 1000, .str "i", .str "x.py", .int 300] : CEvent) ≤ getTimestamp 0 b)) ∧
    paste_burst_detection ⟨0, [[.int 0, .str "i", .str "x.py", .int 500]] ++ []⟩ ≤
      paste_burst_detection ⟨0, [[.int 0, .str "i", .str "x.py", .int 500]] ++
        [.int 1000, .str "i", .str "x.py", .int 300] :: []⟩ :=
  ⟨⟨by decide, by decide, by decide⟩,
    paste_burst_monotone 0 [[.int 0, .str "i", .str "x.py", .int 500]] []
      [.int 1000, .str "i", .str "x.py", .int 300] (by decide) (by decide) (by decide)⟩

/-! ## Claim C8 -/

/-- Claim C8 — The flag generator returns at most 3 flags; the sorted
candidate list is priority-descending with ties in the listed candidate
order (equivalently, since all candidate priorities lie in {10, 9, 5}:
the concatenation of the priority-10, priority-9 and priority-5
candidates in construction order); the returned `Flag` record carries no
priority field; and when no candidate condition matches the generator
returns exactly the one severity-none Assessment flag. -/
theorem flag_generator_contract (m : Metrics) (ed : EventData) (wp : Option WorkPatterns) :
    (generate_detailed_flags m ed wp).length ≤ 3 ∧
    sortDesc (potential_flags m wp) =
      (potential_flags m wp).filter (fun f => f.priority == 10) ++
        (potential_flags m wp).filter (fun f => f.priority == 9) ++
        (potential_flags m wp).filter (fun f => f.priority == 5) ∧
    (noFlagConditions m wp → generate_detailed_flags m ed wp = [noSuspiciousFlag]) :=
  ⟨generate_flags_length_le m ed wp,
    sortDesc_buckets _ (potential_flags_priorities m wp),
    generate_flags_none m ed wp⟩

/-- A metrics record with every score at 10 and nothing suspicious. -/
def idleMetrics : Metrics := ⟨10, 10, 10, 0, 10, ⟨0, 0, 10, []⟩, 10, []⟩

/-- Witness for C8 at `idleMetrics` with no work patterns: no condition
matches and the single "none" flag is returned. -/
theorem flag_generator_contract_witness :
    noFlagConditions idleMetrics none ∧
      generate_detailed_flags idleMetrics ⟨0, []⟩ none = [noSuspiciousFlag] := by
  have hc : noFlagConditions idleMetrics none := by
    unfold noFlagConditions idleMetrics
    refine ⟨?_, ?_, ?_, ?_, ?_, ?_, ?_, ?_⟩ <;> decide
  exact ⟨hc, (flag_generator_contract idleMetrics ⟨0, []⟩ none).2.2 hc⟩

/-! ## Claim C9 -/

/-- A compact log whose single event carries a path, not a basename. -/
def pathFileLog : EventData := ⟨0, [[.int 0, .str "i", .str "dir/main.py", .int 50]]⟩

lemma pathFileLog_keys : (file_level_analysis pathFileLog).map Prod.fst = ["dir/main.py"] := by
  unfold file_level_analysis pathFileLog firstSeen analyzeFile
  norm_num +decide [firstSeenAux, fileOf, getType, pyStr, pyInt]

/-- Claim C9 counterexample — in the compact wire format the
`file_risks` key is the raw `event[2]` filename: for a wire record
carrying `"dir/main.py"` the produced key is `"dir/main.py"` itself —
it still contains the path separator and is not the basename
`"main.py"`. -/
theorem file_risk_key_keeps_path :
    (file_level_analysis pathFileLog).map Prod.fst = ["dir/main.py"] ∧
    '/' ∈ "dir/main.py".data ∧ "dir/main.py" ≠ "main.py" :=
  ⟨pathFileLog_keys, by decide, by decide⟩

lemma firstSeenAux_cons (seen : List String) (a : String) (tl : List String) :
    firstSeenAux seen (a :: tl) =
      if a ∈ seen then firstSeenAux seen tl else a :: firstSeenAux (a :: seen) tl := rfl

lemma firstSeenAux_subset :
    ∀ (l seen : List String) (x : String), x ∈ firstSeenAux seen l → x ∈ l := by
  intro l
  induction l with
  | nil =>
    intro seen x hx
    simp [firstSeenAux] at hx
  | cons a tl ih =>
    intro seen x hx
    rw [firstSeenAux_cons] at hx
    by_cases hmem : a ∈ seen
    · rw [if_pos hmem] at hx
      exact List.mem_cons_of_mem a (ih seen x hx)
    · rw [if_neg hmem] at hx
      rcases List.mem_cons.mp hx with rfl | hx2
      · exact List.mem_cons_self _ _
      · exact List.mem_cons_of_mem a (ih (a :: seen) x hx2)

/-- Claim C9 (amended) — every key of the `file_risks` map is one of the
raw per-event filenames of the wire record, used verbatim (no basename
reduction happens in the compact branch; only the unmodelled legacy
dict branch splits on `'/'`). -/
theorem file_risk_keys_are_event_filenames (d : EventData) :
    ∀ k ∈ (file_level_analysis d).map Prod.fst, k ∈ d.events.map fileOf := by
  intro k hk
  obtain ⟨⟨name, fr⟩, hmem, hfst⟩ := List.mem_map.mp hk
  unfold file_level_analysis at hmem
  dsimp only at hmem
  obtain ⟨n2, hn2, hmap⟩ := List.mem_filterMap.mp hmem
  have hn : n2 = k := by
    obtain ⟨v, _, hv2⟩ := Option.map_eq_some'.mp hmap
    exact (congrArg Prod.fst hv2).trans hfst
  rw [← hn]
  exact firstSeenAux_subset _ _ _ hn2

/-- Witness for the amended C9 at `pathFileLog`. -/
theorem file_risk_keys_are_event_filenames_witness :
    "dir/main.py" ∈ (file_level_analysis pathFileLog).map Prod.fst ∧
      "dir/main.py" ∈ pathFileLog.events.map fileOf := by
  have hmem : "dir/main.py" ∈ (file_level_analysis pathFileLog).map Prod.fst := by
    rw [pathFileLog_keys]
    exact List.mem_singleton.mpr rfl
  exact ⟨hmem, file_risk_keys_are_event_filenames pathFileLog "dir/main.py" hmem⟩

/-! ## Claim C3: a 3-field compact event is coerced, not rejected -/

/-- A log whose single compact event has only 3 fields — no
`char_count`. -/
def shortEventLog : EventData := ⟨0, [[.int 0, .str "i", .str "a.py"]]⟩

/-- The same log with an explicit `char_count` of 0. -/
def paddedEventLog : EventData := ⟨0, [[.int 0, .str "i", .str "a.py", .int 0]]⟩

/-- The file risk both logs produce for `a.py`. -/
def fr3 : FileRisk := ⟨"low", [], 0, 0, 0, 1, 0⟩

/-- The metrics record both logs produce. -/
def m3 : Metrics := ⟨0, 0, 0, 0, 0, ⟨0, 0, 0, []⟩, 0, [("a.py", fr3)]⟩

/-- The work patterns both logs produce. -/
def wp3 : WorkPatterns := ⟨0, 0, 0, 0, 0, 0, 0⟩

/-- The flags both logs produce. -/
def r3flags : List Flag :=
  [⟨"medium", "Development Pattern", .chunks_appeared 0⟩,
    ⟨"medium", "Typing Behavior", .robotic_typing 0⟩,
    ⟨"medium", "Work Sessions", .few_sessions 0⟩]

lemma overall_m3 : calculate_overall_score m3 = 0 := by
  unfold calculate_overall_score m3
  norm_num [round1]

lemma flags_m3 (ed : EventData) : generate_detailed_flags m3 ed (some wp3) = r3flags := by
  have hp : potential_flags m3 (some wp3) =
      [⟨5, "medium", "Development Pattern", .chunks_appeared 0⟩,
        ⟨5, "medium", "Typing Behavior", .robotic_typing 0⟩,
        ⟨5, "medium", "Work Sessions", .few_sessions 0⟩] := by
    unfold potential_flags m3 wp3 fr3
    norm_num +decide
  unfold generate_detailed_flags
  rw [hp]
  rfl

lemma short_inc : incremental_score shortEventLog = 0 := by
  unfold incremental_score shortEventLog
  norm_num +decide [getType, getCharCount, pyInt]

lemma short_tv : typing_variance shortEventLog = 0 := rfl

lemma short_ec : error_correction_ratio shortEventLog = 0 := by
  unfold error_correction_ratio shortEventLog
  norm_num +decide [getType, round1]

lemma short_pb : paste_burst_detection shortEventLog = 0 := by decide

lemma short_sc : session_consistency_score shortEventLog = 0 := by
  rw [session_score_eq shortEventLog _ _ rfl]
  decide

lemma short_vel : code_velocity_analysis shortEventLog = ⟨0, 0, 0, []⟩ := rfl

lemma short_file : file_level_analysis shortEventLog = [("a.py", fr3)] := by
  unfold file_level_analysis shortEventLog firstSeen analyzeFile fr3
  norm_num +decide [firstSeenAux, fileOf, getType, getCharCount, pyStr, pyInt,
    getTimestamp, round3, round_eq]

lemma short_wp : analyze_work_patterns shortEventLog = some wp3 := by
  unfold analyze_work_patterns shortEventLog wp3
  norm_num +decide [getType, getCharCount, getTimestamp, pyInt, adjGaps, round1, round_eq]

lemma short_result : calculate_all_metrics shortEventLog = ⟨m3, 0, some wp3, r3flags⟩ := by
  unfold calculate_all_metrics
  dsimp only
  rw [short_inc, short_tv, short_ec, short_pb, short_sc, short_vel, short_file, short_wp]
  have hm : (⟨0, 0, 0, 0, 0, ⟨0, 0, 0, []⟩, (Velocity.mk 0 0 0 []).score,
      [("a.py", fr3)]⟩ : Metrics) = m3 := rfl
  rw [hm, overall_m3, flags_m3]

lemma padded_inc : incremental_score paddedEventLog = 0 := by
  unfold incremental_score paddedEventLog
  norm_num +decide [getType, getCharCount, pyInt]

lemma padded_tv : typing_variance paddedEventLog = 0 := rfl

lemma padded_ec : error_correction_ratio paddedEventLog = 0 := by
  unfold error_correction_ratio paddedEventLog
  norm_num +decide [getType, round1]

lemma padded_pb : paste_burst_detection paddedEventLog = 0 := by decide

lemma padded_sc : session_consistency_score paddedEventLog = 0 := by
  rw [session_score_eq paddedEventLog _ _ rfl]
  decide

lemma padded_vel : code_velocity_analysis paddedEventLog = ⟨0, 0, 0, []⟩ := rfl

lemma padded_file : file_level_analysis paddedEventLog = [("a.py", fr3)] := by
  unfold file_level_analysis paddedEventLog firstSeen analyzeFile fr3
  norm_num +decide [firstSeenAux, fileOf, getType, getCharCount, pyStr, pyInt,
    getTimestamp, round3, round_eq]

lemma padded_wp : analyze_work_patterns paddedEventLog = some wp3 := by
  unfold analyze_work_patterns paddedEventLog wp3
  norm_num +decide [getType, getCharCount, getTimestamp, pyInt, adjGaps, round1, round_eq]

lemma padded_result : calculate_all_metrics paddedEventLog = ⟨m3, 0, some wp3, r3flags⟩ := by
  unfold calculate_all_metrics
  dsimp only
  rw [padded_inc, padded_tv, padded_ec, padded_pb, padded_sc, padded_vel, padded_file, padded_wp]
  have hm : (⟨0, 0, 0, 0, 0, ⟨0, 0, 0, []⟩, (Velocity.mk 0 0 0 []).score,
      [("a.py", fr3)]⟩ : Metrics) = m3 := rfl
  rw [hm, overall_m3, flags_m3]

/-- Claim C3 counterexample — an event with wrong arity (a 3-element
compact event, missing `char_count`) does NOT abort the analysis: the
missing `char_count` is silently read as 0 and the full analysis result
equals that of the same log with an explicit `char_count` of 0. -/
theorem malformed_event_not_aborted :
    getCharCount [PyVal.int 0, PyVal.str "i", PyVal.str "a.py"] = 0 ∧
    calculate_all_metrics shortEventLog = calculate_all_metrics paddedEventLog :=
  ⟨by decide, short_result.trans padded_result.symm⟩

/-- Claim C3 (amended) — the engine silently coerces short compact
events instead of aborting: every event with fewer than 4 fields has
its `char_count` read as 0, and the analysis of a log containing such
an event completes with a fully defined result (here spelled out for
`shortEventLog`).  (Only events of arity ≤ 1 raise `IndexError` in the
source.) -/
theorem short_arity_events_coerced :
    (∀ e : CEvent, e.length ≤ 3 → getCharCount e = 0) ∧
    calculate_all_metrics shortEventLog = ⟨m3, 0, some wp3, r3flags⟩ := by
  constructor
  · intro e he
    unfold getCharCount
    rw [if_neg (by omega)]
  · exact short_result

/-- Witness for the amended C3 at a 2-field event. -/
theorem short_arity_events_coerced_witness :
    ([PyVal.int 5, PyVal.str "i"] : CEvent).length ≤ 3 ∧
      getCharCount [PyVal.int 5, PyVal.str "i"] = 0 :=
  ⟨by decide, short_arity_events_coerced.1 _ (by decide)⟩

/-! ## Claim C1 -/

/-- Claim C1 — For every event log whose events all have
`char_count ≥ 0`, every 0–10 score of the analysis result —
`incremental_score`, `typing_variance`, `error_correction_ratio`,
`session_consistency`, the velocity score (= `velocity_score`), and
`overall_score` — lies in [0, 10], and `paste_burst_count` is a
non-negative integer. -/
theorem all_scores_within_bounds (d : EventData)
    (h : ∀ e ∈ d.events, 0 ≤ getCharCount e) :
    (0 ≤ (calculate_all_metrics d).metrics.incremental_score ∧
      (calculate_all_metrics d).metrics.incremental_score ≤ 10) ∧
    (0 ≤ (calculate_all_metrics d).metrics.typing_variance ∧
      (calculate_all_metrics d).metrics.typing_variance ≤ 10) ∧
    (0 ≤ (calculate_all_metrics d).metrics.error_correction_ratio ∧
      (calculate_all_metrics d).metrics.error_correction_ratio ≤ 10) ∧
    (0 ≤ (calculate_all_metrics d).metrics.session_consistency ∧
      (calculate_all_metrics d).metrics.session_consistency ≤ 10) ∧
    (0 ≤ (calculate_all_metrics d).metrics.velocity.score ∧
      (calculate_all_metrics d).metrics.velocity.score ≤ 10) ∧
    (calculate_all_metrics d).metrics.velocity_score =
      (calculate_all_metrics d).metrics.velocity.score ∧
    (0 ≤ (calculate_all_metrics d).overall_score ∧
      (calculate_all_metrics d).overall_score ≤ 10) ∧
    0 ≤ ((calculate_all_metrics d).metrics.paste_burst_count : ℤ) := by
  have hmetrics : (calculate_all_metrics d).metrics =
      ⟨incremental_score d, typing_variance d, error_correction_ratio d,
        paste_burst_detection d, session_consistency_score d, code_velocity_analysis d,
        (code_velocity_analysis d).score, file_level_analysis d⟩ := rfl
  have hoverall : (calculate_all_metrics d).overall_score =
      calculate_overall_score
        ⟨incremental_score d, typing_variance d, error_correction_ratio d,
          paste_burst_detection d, session_consistency_score d, code_velocity_analysis d,
          (code_velocity_analysis d).score, file_level_analysis d⟩ := rfl
  rw [hmetrics, hoverall]
  dsimp only
  exact ⟨incremental_score_bounds d h, typing_variance_bounds d,
    error_correction_ratio_bounds d, session_consistency_score_bounds d,
    code_velocity_analysis_score_bounds d, rfl,
    calculate_overall_score_bounds _ (incremental_score_bounds d h).2
      (typing_variance_bounds d).2 (error_correction_ratio_bounds d).2
      (session_consistency_score_bounds d).2 (code_velocity_analysis_score_bounds d).2,
    Int.natCast_nonneg _⟩

/-- Witness for C1 at `twoSessionLog` (all char counts ≥ 0). -/
theorem all_scores_within_bounds_witness :
    (∀ e ∈ twoSessionLog.events, 0 ≤ getCharCount e) ∧
      (0 ≤ (calculate_all_metrics twoSessionLog).metrics.incremental_score ∧
        (calculate_all_metrics twoSessionLog).metrics.incremental_score ≤ 10) :=
  ⟨by decide, (all_scores_within_bounds twoSessionLog (by decide)).1⟩

/-! ## Justification of the exact integer-sqrt form of `typing_variance` -/

/-- Rounding to one decimal over ℝ. -/
noncomputable def round1R (x : ℝ) : ℝ := (round (x * 10) : ℤ) / 10

/-- Reference transcription of `typing_variance` with a genuine real
square root (`np.sqrt`), used only to justify `typing_variance`. -/
noncomputable def typingVarianceSqrt (event_data : EventData) : ℝ :=
  if event_data.events.length < 2 then 0 else
  let insert_events := event_data.events.filter
    (fun e => getType e == "insert" && decide (0 < getCharCount e))
  if insert_events.length < 2 then 0 else
  let intervals := tvIntervals event_data.base_time insert_events
  if intervals.length < 2 then 0 else
  let n : ℝ := intervals.length
  let mean : ℝ := ((intervals.sum : ℤ) : ℝ) / n
  let variance : ℝ := ((intervals.map (fun x : ℤ => ((x : ℝ) - mean) ^ 2)).sum) / n
  if mean = 0 ∨ variance = 0 then 0 else
  let cv : ℝ := Real.sqrt variance / mean
  let raw_score : ℝ := min (cv / 2) 1
  round1R (raw_score * 10)

lemma round_mono_real {x y : ℝ} (h : x ≤ y) : round x ≤ round y := by
  simp only [round_eq]
  exact Int.floor_le_floor (by linarith)

lemma round_min_hundred (x : ℝ) : round (min x (100 : ℝ)) = min (round x) 100 := by
  rcases le_total x 100 with hx | hx
  · rw [min_eq_left hx]
    have h := round_mono_real hx
    rw [show ((100 : ℝ)) = ((100 : ℤ) : ℝ) by norm_num, round_intCast] at h
    rw [min_eq_left h]
  · rw [min_eq_right hx]
    have h := round_mono_real hx
    rw [show ((100 : ℝ)) = ((100 : ℤ) : ℝ) by norm_num, round_intCast] at h
    rw [show ((100 : ℝ)) = ((100 : ℤ) : ℝ) by norm_num, round_intCast, min_eq_right h]

lemma cast_sum_int (F : Type) [Field F] (l : List ℤ) :
    ((l.sum : ℤ) : F) = (l.map (fun x : ℤ => ((x : F)))).sum := by
  induction l with
  | nil => simp
  | cons a tl ih => simp [ih]

lemma cast_sum_sq_int (F : Type) [Field F] (l : List ℤ) :
    (((l.map (fun x => x ^ 2)).sum : ℤ) : F) = (l.map (fun x : ℤ => ((x : F)) ^ 2)).sum := by
  induction l with
  | nil => simp
  | cons a tl ih =>
    simp only [List.map_cons, List.sum_cons, Int.cast_add, Int.cast_pow, ih]

lemma sum_centered_sq (F : Type) [Field F] (l : List ℤ) (c : F) :
    (l.map (fun x : ℤ => ((x : F) - c) ^ 2)).sum =
      (l.map (fun x : ℤ => ((x : F)) ^ 2)).sum -
        2 * c * (l.map (fun x : ℤ => ((x : F)))).sum +
        (l.length : F) * c ^ 2 := by
  induction l with
  | nil => simp
  | cons a tl ih =>
    simp only [List.map_cons, List.sum_cons, List.length_cons, ih, Nat.cast_add, Nat.cast_one]
    ring

lemma floor_sqrt_add_div (N : ℕ) (c d : ℤ) (hd : 0 < d) :
    ⌊(Real.sqrt N + (c : ℝ)) / (d : ℝ)⌋ = ((Nat.sqrt N : ℤ) + c) / d := by
  have hs_le : ((Nat.sqrt N : ℤ) : ℝ) ≤ Real.sqrt N := by
    push_cast
    exact Real.nat_sqrt_le_real_sqrt
  have hs_lt : Real.sqrt N < ((Nat.sqrt N : ℤ) : ℝ) + 1 := by
    push_cast
    exact Real.real_sqrt_lt_nat_sqrt_succ
  set s : ℤ := (Nat.sqrt N : ℤ) with hs
  set q : ℤ := (s + c) / d with hq
  have hdiv : d * q + (s + c) % d = s + c := Int.ediv_add_emod (s + c) d
  have hr0 : 0 ≤ (s + c) % d := Int.emod_nonneg (s + c) (ne_of_gt hd)
  have hrlt : (s + c) % d < d := Int.emod_lt_of_pos (s + c) hd
  have hlow : d * q ≤ s + c := by linarith
  have hhigh : s + c + 1 ≤ d * q + d := by linarith
  have hdR : (0 : ℝ) < (d : ℝ) := by exact_mod_cast hd
  rw [Int.floor_eq_iff]
  constructor
  · rw [le_div_iff hdR]
    have h1R : ((d * q : ℤ) : ℝ) ≤ ((s + c : ℤ) : ℝ) := by exact_mod_cast hlow
    push_cast at h1R
    linarith
  · rw [div_lt_iff hdR]
    have h2R : ((s + c + 1 : ℤ) : ℝ) ≤ ((d * q + d : ℤ) : ℝ) := by exact_mod_cast hhigh
    push_cast at h2R
    nlinarith

/-- Justification theorem: the exact rational `typing_variance` above
equals the direct `Real.sqrt` transcription of the source. -/
theorem typing_variance_exact (d : EventData) :
    ((typing_variance d : ℚ) : ℝ) = typingVarianceSqrt d := by
  unfold typing_variance typingVarianceSqrt round1R
  by_cases h1 : d.events.length < 2
  · rw [if_pos h1, if_pos h1]
    norm_num
  rw [if_neg h1, if_neg h1]
  dsimp only
  set ins := d.events.filter (fun e => getType e == "insert" && decide (0 < getCharCount e))
    with hins
  by_cases h2 : ins.length < 2
  · rw [if_pos h2, if_pos h2]
    norm_num
  rw [if_neg h2, if_neg h2]
  set l := tvIntervals d.base_time ins with hl
  by_cases h3 : l.length < 2
  · rw [if_pos h3, if_pos h3]
    norm_num
  rw [if_neg h3, if_neg h3]
  set S : ℤ := l.sum with hS
  set Q : ℤ := (l.map (fun x => x ^ 2)).sum with hQ
  set n : ℕ := l.length with hn
  have hn0 : 0 < n := by omega
  have hnQ : ((n : ℚ)) ≠ 0 := by exact_mod_cast hn0.ne.symm
  have hnR : ((n : ℝ)) ≠ 0 := by exact_mod_cast hn0.ne.symm
  have hpos : ∀ x ∈ l, 0 < x := tvIntervals_pos d.base_time ins
  have hlne : l ≠ [] := by
    intro hc
    rw [hc] at hn
    simp at hn
    omega
  have hSpos : 0 < S := List.sum_pos l hpos hlne
  have hSQ : ((S : ℚ)) ≠ 0 := by exact_mod_cast hSpos.ne.symm
  have hSR : ((S : ℝ)) ≠ 0 := by exact_mod_cast hSpos.ne.symm
  set D : ℤ := (n : ℤ) * Q - S ^ 2 with hD
  have hvarQ : ((l.map (fun x : ℤ => ((x : ℚ) - (S : ℚ) / (n : ℚ)) ^ 2)).sum) / (n : ℚ) =
      ((D : ℚ)) / ((n : ℚ)) ^ 2 := by
    rw [sum_centered_sq ℚ l ((S : ℚ) / (n : ℚ)), ← cast_sum_sq_int ℚ l, ← cast_sum_int ℚ l]
    rw [← hS, ← hQ, ← hn, hD]
    push_cast
    field_simp
    ring
  have hvarR : ((l.map (fun x : ℤ => ((x : ℝ) - (S : ℝ) / (n : ℝ)) ^ 2)).sum) / (n : ℝ) =
      ((D : ℝ)) / ((n : ℝ)) ^ 2 := by
    rw [sum_centered_sq ℝ l ((S : ℝ) / (n : ℝ)), ← cast_sum_sq_int ℝ l, ← cast_sum_int ℝ l]
    rw [← hS, ← hQ, ← hn, hD]
    push_cast
    field_simp
    ring
  have hvar0 : (0 : ℝ) ≤ ((D : ℝ)) / ((n : ℝ)) ^ 2 := by
    rw [← hvarR]
    apply div_nonneg _ (by positivity)
    apply List.sum_nonneg
    intro x hx
    obtain ⟨y, _, rfl⟩ := List.mem_map.mp hx
    positivity
  have hD0 : 0 ≤ D := by
    have hDR : (0 : ℝ) ≤ (D : ℝ) := by
      have hn2 : (0 : ℝ) < ((n : ℝ)) ^ 2 := by positivity
      rcases div_nonneg_iff.mp hvar0 with ⟨hDpos, _⟩ | ⟨_, hneg⟩
      · exact hDpos
      · linarith
    exact_mod_cast hDR
  have hmean_iff : ((S : ℚ) / (n : ℚ) = 0) ↔ ((S : ℝ) / (n : ℝ) = 0) := by
    rw [div_eq_zero_iff, div_eq_zero_iff]
    constructor
    · rintro (h | h)
      · left
        exact_mod_cast (show S = 0 by exact_mod_cast h)
      · exact absurd h hnQ
    · rintro (h | h)
      · left
        exact_mod_cast (show S = 0 by exact_mod_cast h)
      · exact absurd h hnR
  have hvar_iff : (((l.map (fun x : ℤ => ((x : ℚ) - (S : ℚ) / (n : ℚ)) ^ 2)).sum) / (n : ℚ) = 0) ↔
      (((l.map (fun x : ℤ => ((x : ℝ) - (S : ℝ) / (n : ℝ)) ^ 2)).sum) / (n : ℝ) = 0) := by
    rw [hvarQ, hvarR, div_eq_zero_iff, div_eq_zero_iff]
    constructor
    · rintro (h | h)
      · left
        exact_mod_cast (show D = 0 by exact_mod_cast h)
      · exact absurd h (by positivity)
    · rintro (h | h)
      · left
        exact_mod_cast (show D = 0 by exact_mod_cast h)
      · exact absurd h (by positivity)
  have hor_iff := or_congr hmean_iff hvar_iff
  by_cases h4 : (S : ℚ) / (n : ℚ) = 0 ∨
      ((l.map (fun x : ℤ => ((x : ℚ) - (S : ℚ) / (n : ℚ)) ^ 2)).sum) / (n : ℚ) = 0
  · rw [if_pos h4, if_pos (hor_iff.mp h4)]
    norm_num
  · rw [if_neg h4, if_neg (fun hc => h4 (hor_iff.mpr hc))]
    have hsqrt_var : Real.sqrt (((l.map (fun x : ℤ => ((x : ℝ) - (S : ℝ) / (n : ℝ)) ^ 2)).sum) /
        (n : ℝ)) = Real.sqrt ((D : ℝ)) / (n : ℝ) := by
      rw [hvarR, Real.sqrt_div (by exact_mod_cast hD0), Real.sqrt_sq (by positivity)]
    have hcv : Real.sqrt (((l.map (fun x : ℤ => ((x : ℝ) - (S : ℝ) / (n : ℝ)) ^ 2)).sum) /
        (n : ℝ)) / ((S : ℝ) / (n : ℝ)) = Real.sqrt ((D : ℝ)) / (S : ℝ) := by
      rw [hsqrt_var]
      field_simp
    have hNcast : (((10000 * D).toNat : ℕ) : ℝ) = 10000 * (D : ℝ) := by
      have h := Int.toNat_of_nonneg (show (0 : ℤ) ≤ 10000 * D by omega)
      exact_mod_cast h
    have hsqrtN : Real.sqrt (((10000 * D).toNat : ℕ) : ℝ) = 100 * Real.sqrt ((D : ℝ)) := by
      rw [hNcast, show (10000 : ℝ) * (D : ℝ) = 100 ^ 2 * (D : ℝ) by norm_num]
      rw [Real.sqrt_mul (by positivity), Real.sqrt_sq (by norm_num)]
    have hSRpos : (0 : ℝ) < (S : ℝ) := by exact_mod_cast hSpos
    have hmin : min (Real.sqrt ((D : ℝ)) / (S : ℝ) / 2) 1 * 10 * 10 =
        min (Real.sqrt ((D : ℝ)) / (S : ℝ) * 50) 100 := by
      rw [mul_assoc, min_mul_of_nonneg _ _ (by norm_num : (0 : ℝ) ≤ 10 * 10)]
      congr 1
      · ring
      · norm_num
    have harg : Real.sqrt ((D : ℝ)) / (S : ℝ) * 50 + 1 / 2 =
        (Real.sqrt (((10000 * D).toNat : ℕ) : ℝ) + ((S : ℤ) : ℝ)) / ((2 * S : ℤ) : ℝ) := by
      rw [hsqrtN]
      push_cast
      field_simp
      ring
    have hround : round (min (Real.sqrt ((D : ℝ)) / (S : ℝ) / 2) 1 * 10 * 10) =
        min (((Nat.sqrt (10000 * D).toNat : ℤ) + S) / (2 * S)) 100 := by
      rw [hmin, round_min_hundred, round_eq, harg,
        floor_sqrt_add_div ((10000 * D).toNat) S (2 * S) (by omega)]
    rw [hcv, hround]
    push_cast
    ring

end EditorWatch
